import Mathlib

/-!
Verification of `noProfit_dataBase` (`src/automation.py`, `src/scraper.py`).

The pipeline under study: load a cached name-to-link mapping, shell out to an
external scraping subprocess once per organization, parse the returned JSON,
fold the records into a table and write a timestamped CSV.  External effects
(the subprocess, `json.loads`, the search library, the pickle cache) are
modelled as explicit function parameters; everything else is translated
directly from the Python source.
-/

set_option maxRecDepth 10000

namespace NoProfit

/-- A JSON-ish Python value as it occurs in this pipeline: the extractor
returns objects whose values are strings or lists of strings (contact lists,
name lists). -/
inductive PyVal where
  | str (s : String)
  | list (l : List String)
deriving DecidableEq, Repr

/-- Lookup in a Python dict modelled as an association list in insertion
order (Python dicts preserve insertion order; keys are unique). -/
def alGet {κ α : Type} [DecidableEq κ] : List (κ × α) → κ → Option α
  | [], _ => none
  | (k', v) :: rest, k => if k' = k then some v else alGet rest k

/-- Assignment `d[k] = v` on a Python dict modelled as an association list:
an existing key keeps its position, a new key is appended at the end. -/
def alSet {κ α : Type} [DecidableEq κ] : List (κ × α) → κ → α → List (κ × α)
  | [], k, v => [(k, v)]
  | (k', v') :: rest, k, v =>
    if k' = k then (k', v) :: rest else (k', v') :: alSet rest k v

/-- A parsed JSON object (`json.loads` result): field name to value. -/
abbrev Record : Type := List (String × PyVal)

/-- Python `repr` of a string value, as it appears inside `str(list)`
(quoting only; the strings in this pipeline need no escaping). -/
def quoteStr (s : String) : String := "'" ++ s ++ "'"

/-- Python `", ".join` as used by `str` on a list. -/
def joinComma : List String → String
  | [] => ""
  | [s] => s
  | s :: rest => s ++ ", " ++ joinComma rest

/-- Python `str(v)`: a string renders as itself, a list as
bracketed comma-separated `repr`s of its elements. -/
def pyStr : PyVal → String
  | .str s => s
  | .list l => "[" ++ joinComma (l.map quoteStr) ++ "]"

/-- Python slice `s[1:-1]`: drop the first and the last character. -/
def strSlice1m1 (s : String) : String := ⟨(s.data.drop 1).dropLast⟩

/-- Python `s.rsplit(sep, 1)[0]` for `sep = '/'`: everything before the last
slash, or the whole string when no slash occurs
(`src/automation.py` line 204). -/
def rsplitBeforeLast (s : String) : String :=
  match s.data.reverse.dropWhile (fun c => c != '/') with
  | [] => s
  | _ :: rest => ⟨rest.reverse⟩

/-- Python iteration over a JSON value: a list yields its elements, a string
yields its one-character substrings (as Python indexing does). -/
def pyIter : PyVal → List PyVal
  | .str s => s.data.map (fun c => PyVal.str ⟨[c]⟩)
  | .list l => l.map PyVal.str

/-! ## The rate-limited search backend (`duckduckgo_search`, lines 84-110)

The external call `DDGS().text(...)[0]['href']` either produces a URL or
raises a `DuckDuckGoSearchException` carrying a message; an oracle gives the
outcome of the `attempt`-th call. -/

instance {ε α : Type} [DecidableEq ε] [DecidableEq α] : DecidableEq (Except ε α) := fun x y =>
  match x, y with
  | .ok a, .ok b =>
    if h : a = b then .isTrue (by rw [h])
    else .isFalse (by intro hc; cases hc; exact h rfl)
  | .ok _, .error _ => .isFalse (by intro hc; cases hc)
  | .error _, .ok _ => .isFalse (by intro hc; cases hc)
  | .error a, .error b =>
    if h : a = b then .isTrue (by rw [h])
    else .isFalse (by intro hc; cases hc; exact h rfl)

/-- Outcome of one attempt of the external DuckDuckGo text search. -/
inductive SearchOutcome where
  | ok (url : String)
  | exn (msg : String)

/-- Trace of one `duckduckgo_search` run: the delays slept, in order, and
either the returned URL or the message of the raised exception. -/
structure DdgRun where
  delays : List Nat
  outcome : Except String String
deriving DecidableEq, Repr

/-- Python substring test `pat in s` on character lists. -/
def listContains (pat : List Char) : List Char → Bool
  | [] => pat.isEmpty
  | c :: rest => pat.isPrefixOf (c :: rest) || listContains pat rest

/-- The test `"Ratelimit" in str(e)` from line 104. -/
def hasRatelimit (msg : String) : Bool :=
  listContains "Ratelimit".data msg.data

/-- The retry loop of `duckduckgo_search` (lines 98-110): `remaining`
iterations of `for attempt in range(max_retries)` are left.  On a rate-limit
exception with `attempt < max_retries - 1` the loop sleeps
`5 * 2 ** attempt` seconds and retries; any other exception re-raises; the
fall-through after the loop raises "Max retries reached". -/
def ddgGo (oracle : Nat → SearchOutcome) : Nat → Nat → List Nat → DdgRun
  | _, 0, acc => ⟨acc, .error "Max retries reached. Unable to complete search."⟩
  | attempt, r + 1, acc =>
    match oracle attempt with
    | .ok url => ⟨acc, .ok url⟩
    | .exn msg =>
      if hasRatelimit msg = true ∧ attempt < 9 then
        ddgGo oracle (attempt + 1) r (acc ++ [5 * 2 ^ attempt])
      else ⟨acc, .error msg⟩

/-- Function `duckduckgo_search` with `max_retries = 10`, `initial_delay = 5`. -/
def duckduckgo_search (oracle : Nat → SearchOutcome) : DdgRun :=
  ddgGo oracle 0 10 []

lemma ddg_step (oracle : Nat → SearchOutcome) (attempt r : Nat) (acc : List Nat)
    (m : String) (hm : oracle attempt = .exn m) (hr : hasRatelimit m = true)
    (hlt : attempt < 9) :
    ddgGo oracle attempt (r + 1) acc =
      ddgGo oracle (attempt + 1) r (acc ++ [5 * 2 ^ attempt]) := by
  simp only [ddgGo, hm]
  rw [if_pos ⟨hr, hlt⟩]

lemma ddg_last (oracle : Nat → SearchOutcome) (r : Nat) (acc : List Nat)
    (m : String) (hm : oracle 9 = .exn m) :
    ddgGo oracle 9 (r + 1) acc = ⟨acc, .error m⟩ := by
  simp only [ddgGo, hm]
  rw [if_neg (by omega)]

/-! ## Organization-info collection (`get_np_info`, lines 175-211)

The subprocess call `subprocess.run(['python3', 'scraper.py', ...])` is
modelled by an oracle giving the captured stdout/stderr for the `n`-th
organization, and `json.loads` by a parse oracle returning `none` exactly
when it would raise `JSONDecodeError`. -/

/-- Captured output of one `subprocess.run(..., capture_output=True)` call. -/
structure SubprocResult where
  stdout : String
  stderr : String

/-- State threaded through the `get_np_info` loop: the accumulating
`NPs_dict`, the diagnostics printed so far, and the indices for which the
extraction subprocess has been invoked (each invocation appends its index,
so the trace counts subprocess calls). -/
structure NpState where
  dict : List (String × Record)
  log : List String
  calls : List Nat

/-- The diagnostic printed on empty stdout (line 206):
`f"{n+1}/{limit} | {name}\n{result.stderr}"`. -/
def diagMsg (n limit : Nat) (name stderr : String) : String :=
  toString (n + 1) ++ "/" ++ toString limit ++ " | " ++ name ++ "\n" ++ stderr

/-- Lines 202-204: store the parsed JSON under the caller's name, then
overwrite its `name` field with the caller's name and its `link` field with
the source link minus its final path segment. -/
def assembleRecord (rec : Record) (name link : String) : Record :=
  alSet (alSet rec "name" (.str name)) "link" (.str (rsplitBeforeLast link))

/-- The loop body of `get_np_info` over the remaining indices of
`range(limit)`.  `links[n]` / `NPs_names[n]` out of range raises IndexError;
empty stdout prints the diagnostic and skips; otherwise the JSON is parsed
(raising on malformed input) and the assembled record stored. -/
def npLoop (run : Nat → SubprocResult) (parse : String → Option Record)
    (limit : Nat) (links names : List String) :
    List Nat → NpState → Except String NpState
  | [], st => .ok st
  | n :: ns, st =>
    if n < links.length ∧ n < names.length then
      let link := links.getD n ""
      let name := names.getD n ""
      let r := run n
      let st1 : NpState := { st with calls := st.calls ++ [n] }
      if r.stdout = "" then
        npLoop run parse limit links names ns
          { st1 with log := st1.log ++ [diagMsg n limit name r.stderr] }
      else
        match parse r.stdout with
        | none => .error "json.decoder.JSONDecodeError"
        | some rec =>
          npLoop run parse limit links names ns
            { st1 with dict := alSet st1.dict name (assembleRecord rec name link) }
    else .error "IndexError"

/-- Function `get_np_info(limit, links, NPs_names)` (lines 175-211). -/
def get_np_info (run : Nat → SubprocResult) (parse : String → Option Record)
    (limit : Nat) (links names : List String) : Except String NpState :=
  npLoop run parse limit links names (List.range limit) ⟨[], [], []⟩

/-! ## Record assembly (`create_database`, lines 213-234) -/

/-- The pandas DataFrame under construction: its column list and one record
per row (a row's value in a column it lacks is NaN, which never matters to
the claims below). -/
structure Table where
  columns : List String
  rows : List Record
deriving DecidableEq

/-- The fixed initial column set of the DataFrame (lines 223-224). -/
def npColumns : List String :=
  ["name", "location", "description", "size", "contacts", "social_media", "link"]

/-- The `pd.concat` column behaviour: columns of the appended single-row frame
that are not yet present are appended, in the record's field order. -/
def addCols (cols : List String) (r : Record) : List String :=
  r.foldl (fun cs kv => if cs.contains kv.1 then cs else cs ++ [kv.1]) cols

/-- The in-place update of line 227:
`NPs_dict[key]['contacts'] = str(NPs_dict[key]['contacts'])[1:-1]`
(identity when the field is absent, in which case Python raises instead —
the loop below errors before using this default). -/
def mutContacts (r : Record) : Record :=
  match alGet r "contacts" with
  | some v => alSet r "contacts" (.str (strSlice1m1 (pyStr v)))
  | none => r

/-- Whether `pd.DataFrame(record, index=[0])` (line 228) accepts the
record: a scalar (string) value broadcasts over the one-row index and a
list value must have exactly one element to match the index length; any
other list length raises ValueError. -/
def rowOk (r : Record) : Bool :=
  r.all (fun kv => match kv.2 with
    | .str _ => true
    | .list l => l.length == 1)

/-- The loop of `create_database` (lines 226-229) over the remaining dict
entries, carrying the already-processed (mutated) entries and the table so
far.  A record without a `contacts` key raises KeyError at line 227; a
record that, after the contacts flattening, still carries a list value
whose length is not one raises ValueError at line 228 (the accepted row is
modelled by the record itself). -/
def cdLoop : List (String × Record) → List (String × Record) → Table →
    Except String (Table × List (String × Record))
  | [], acc, t => .ok (t, acc)
  | (k, r) :: rest, acc, t =>
    match alGet r "contacts" with
    | none => .error "KeyError: contacts"
    | some v =>
      let r2 := alSet r "contacts" (.str (strSlice1m1 (pyStr v)))
      if rowOk r2 then
        cdLoop rest (acc ++ [(k, r2)]) ⟨addCols t.columns r2, t.rows ++ [r2]⟩
      else .error "ValueError: array length does not match index length"

/-- Function `create_database(NPs_dict)` (lines 213-234): returns the assembled table
together with the mutated input dictionary (the function mutates its
argument in place; the second component is the dictionary's state after the
call). -/
def create_database (d : List (String × Record)) :
    Except String (Table × List (String × Record)) :=
  cdLoop d [] ⟨npColumns, []⟩

/-! ## Discovery (`find_websites`, lines 133-173) -/

/-- The value `find_websites` evaluates to when it does not raise: either
the tuple `(NPs_names, NPs_links)`, or — on empty extractor stdout — the
raw stderr text returned as the function's result (line 157). -/
inductive FindOutcome where
  | soft (stderr : String)
  | found (names : List PyVal) (links : List (PyVal × String))

/-- The link-resolution loop (lines 160-168): `NPs_links[np] = resolve(np)`
for each discovered name in order, stopping at the first raised error. -/
def fwLoop (search : String → Except String String) :
    List PyVal → List (PyVal × String) → Except String (List (PyVal × String))
  | [], acc => .ok acc
  | v :: vs, acc =>
    match search (pyStr v) with
    | .error e => .error e
    | .ok link => fwLoop search vs (alSet acc v link)

/-- Function `find_websites(source_link)` with the extraction subprocess result, the
JSON parser and the configured search backend as oracles.  The backend is
`resolve(name) -> URL` and any exception it raises propagates. -/
def find_websites (r : SubprocResult) (parse : String → Option Record)
    (search : String → Except String String) : Except String FindOutcome :=
  if r.stdout = "" then .ok (.soft r.stderr)
  else
    match parse r.stdout with
    | none => .error "json.decoder.JSONDecodeError"
    | some resdict =>
      match resdict with
      | [] => .error "IndexError"
      | (_, v0) :: _ =>
        let names := pyIter v0
        match fwLoop search names [] with
        | .error e => .error e
        | .ok links => .ok (.found names links)

/-! ## Output file name (`save_db`, lines 252-260) -/

/-- A local wall-clock timestamp as used by `datetime.now().strftime`. -/
structure LocalTime where
  year : Nat
  month : Nat
  day : Nat
  hour : Nat
  minute : Nat

/-- The decimal digit character for `n mod 10`. -/
def digitChar (n : Nat) : Char := Char.ofNat (48 + n % 10)

/-- Two-digit zero-padded decimal (`%m`, `%d`, `%H`, `%M` for values
below 100). -/
def pad2 (n : Nat) : String := ⟨[digitChar (n / 10), digitChar n]⟩

/-- Four-digit zero-padded decimal (`%Y` for years below 10000). -/
def pad4 (n : Nat) : String :=
  ⟨[digitChar (n / 1000), digitChar (n / 100), digitChar (n / 10), digitChar n]⟩

/-- The format `datetime.now().strftime("%Y%m%d-%H%M")` (line 256). -/
def strftimeYmdHM (t : LocalTime) : String :=
  pad4 t.year ++ pad2 t.month ++ pad2 t.day ++ "-" ++ pad2 t.hour ++ pad2 t.minute

/-- The tag `dt = datetime.now().strftime("%Y%m%d-%H%M")[2:]` (line 256). -/
def dtTag (t : LocalTime) : String := ⟨(strftimeYmdHM t).data.drop 2⟩

/-- The file name written by `save_db` (line 258), relative to `path`:
`f'associations_{dt}.csv'`. -/
def save_db_filename (t : LocalTime) : String :=
  "associations_" ++ dtTag t ++ ".csv"

/-! ## Run driver (`main`, lines 263-287, and the `__main__` block,
lines 289-296) -/

/-- The per-organization source link built by `main` (line 279):
`f'{dbd[np]}/about'`. -/
def buildSourceLink (cached : String) : String := cached ++ "/about"

/-- The parsed command-line arguments (lines 243-249). -/
structure Args where
  n_associations : Nat
  limit : Nat
  source_link : String
  path : String
  verbose : Bool

/-- The body of `main(n_associations, limit, path, verbose)`: load the
pickled cache from `f'{path}/links'`, take the first `n_associations` names,
append `/about` to each cached link, collect the per-organization info and
assemble the table.  `loadCache` maps the pickle file name (without the
`.pkl` suffix) to the cached name-to-link dictionary. -/
def mainBody (loadCache : String → List (String × String))
    (run : Nat → SubprocResult) (parse : String → Option Record)
    (n_associations limit : Nat) (path : String) : Except String Table := do
  let dbd := loadCache (path ++ "/links")
  let names := (dbd.map Prod.fst).take n_associations
  let links := names.map (fun np => buildSourceLink ((alGet dbd np).getD ""))
  let st ← get_np_info run parse limit links names
  let (t, _) ← create_database st.dict
  return t

/-- The `__main__` call `main(args.n_associations, args.limit,
args.source_link, args.verbose)` (line 292): the third positional argument —
the source-link flag — is bound to `main`'s `path` parameter. -/
def runBatch (loadCache : String → List (String × String))
    (run : Nat → SubprocResult) (parse : String → Option Record)
    (args : Args) : Except String Table :=
  mainBody loadCache run parse args.n_associations args.limit args.source_link

/-! ## Association-list lemmas -/

lemma alGet_alSet_self {κ α : Type} [DecidableEq κ] (l : List (κ × α)) (k : κ) (v : α) :
    alGet (alSet l k v) k = some v := by
  induction l with
  | nil => simp [alGet, alSet]
  | cons hd tl ih =>
    obtain ⟨k', v'⟩ := hd
    by_cases h : k' = k
    · simp [alGet, alSet, h]
    · simp [alGet, alSet, h, ih]

lemma alGet_alSet_ne {κ α : Type} [DecidableEq κ] (l : List (κ × α)) (k k' : κ) (v : α)
    (h : k ≠ k') : alGet (alSet l k v) k' = alGet l k' := by
  induction l with
  | nil => simp [alGet, alSet, h]
  | cons hd tl ih =>
    obtain ⟨k0, v0⟩ := hd
    by_cases h0 : k0 = k
    · subst h0
      simp [alGet, alSet, h]
    · simp [alGet, alSet, h0, ih]

lemma mem_alSet {κ α : Type} [DecidableEq κ] (l : List (κ × α)) (k : κ) (v : α)
    (e : κ × α) (he : e ∈ alSet l k v) : e ∈ l ∨ e = (k, v) := by
  induction l with
  | nil => simpa [alSet] using he
  | cons hd tl ih =>
    obtain ⟨k0, v0⟩ := hd
    by_cases h0 : k0 = k
    · simp only [alSet, if_pos h0, List.mem_cons] at he
      rcases he with he | he
      · right; rw [he, h0]
      · left; exact List.mem_cons_of_mem _ he
    · simp only [alSet, if_neg h0, List.mem_cons] at he
      rcases he with he | he
      · left; rw [he]; exact List.mem_cons_self _ _
      · rcases ih he with h | h
        · left; exact List.mem_cons_of_mem _ h
        · right; exact h

lemma length_alSet_le {κ α : Type} [DecidableEq κ] (l : List (κ × α)) (k : κ) (v : α) :
    (alSet l k v).length ≤ l.length + 1 := by
  induction l with
  | nil => simp [alSet]
  | cons hd tl ih =>
    obtain ⟨k0, v0⟩ := hd
    by_cases h0 : k0 = k
    · simp [alSet, h0]
    · simp only [alSet, if_neg h0, List.length_cons]
      omega

lemma alSet_of_not_mem_keys {κ α : Type} [DecidableEq κ] (l : List (κ × α)) (k : κ) (v : α)
    (h : k ∉ l.map Prod.fst) : alSet l k v = l ++ [(k, v)] := by
  induction l with
  | nil => simp [alSet]
  | cons hd tl ih =>
    obtain ⟨k0, v0⟩ := hd
    simp only [List.map_cons, List.mem_cons] at h
    push_neg at h
    simp only [alSet, List.cons_append]
    rw [if_neg (by intro hk; exact h.1 hk.symm), ih h.2]

/-! ## The `/about` round trip (claim C5) -/

lemma string_data_append (s t : String) : (s ++ t).data = s.data ++ t.data := rfl

lemma rsplit_about (l : String) : rsplitBeforeLast (l ++ "/about") = l := by
  obtain ⟨d⟩ := l
  unfold rsplitBeforeLast
  have h : ((String.mk d) ++ "/about").data.reverse.dropWhile (fun c => c != '/')
      = '/' :: d.reverse := by
    rw [string_data_append]
    show (d ++ ['/', 'a', 'b', 'o', 'u', 't']).reverse.dropWhile (fun c => c != '/')
        = '/' :: d.reverse
    rw [List.reverse_append]
    simp [List.dropWhile]
  rw [h]
  simp

/-! ## Claim C1 -/

/-- C1: for the rate-limited public search backend (`duckduckgo_search`),
when every attempt fails with a rate-limit error, the delay slept before the
k-th retry is exactly `5 * 2 ^ k` seconds for `k = 0..8`, and after the 10th
attempt the function raises a fatal error rather than returning silently; it
never returns without a URL. -/
theorem ddg_backoff_exhaustion (oracle : Nat → SearchOutcome)
    (h : ∀ k, k < 10 → ∃ m, oracle k = SearchOutcome.exn m ∧ hasRatelimit m = true) :
    (duckduckgo_search oracle).delays = (List.range 9).map (fun k => 5 * 2 ^ k) ∧
    ∃ e, (duckduckgo_search oracle).outcome = Except.error e := by
  obtain ⟨m0, h0, r0⟩ := h 0 (by omega)
  obtain ⟨m1, h1, r1⟩ := h 1 (by omega)
  obtain ⟨m2, h2, r2⟩ := h 2 (by omega)
  obtain ⟨m3, h3, r3⟩ := h 3 (by omega)
  obtain ⟨m4, h4, r4⟩ := h 4 (by omega)
  obtain ⟨m5, h5, r5⟩ := h 5 (by omega)
  obtain ⟨m6, h6, r6⟩ := h 6 (by omega)
  obtain ⟨m7, h7, r7⟩ := h 7 (by omega)
  obtain ⟨m8, h8, r8⟩ := h 8 (by omega)
  obtain ⟨m9, h9, r9⟩ := h 9 (by omega)
  have hrun : duckduckgo_search oracle =
      ⟨(List.range 9).map (fun k => 5 * 2 ^ k), Except.error m9⟩ := by
    show ddgGo oracle 0 (9 + 1) [] = _
    rw [ddg_step oracle 0 9 [] m0 h0 r0 (by omega)]
    show ddgGo oracle 1 (8 + 1) [5 * 2 ^ 0] = _
    rw [ddg_step oracle 1 8 _ m1 h1 r1 (by omega)]
    show ddgGo oracle 2 (7 + 1) [5 * 2 ^ 0, 5 * 2 ^ 1] = _
    rw [ddg_step oracle 2 7 _ m2 h2 r2 (by omega)]
    show ddgGo oracle 3 (6 + 1) [5 * 2 ^ 0, 5 * 2 ^ 1, 5 * 2 ^ 2] = _
    rw [ddg_step oracle 3 6 _ m3 h3 r3 (by omega)]
    show ddgGo oracle 4 (5 + 1) [5 * 2 ^ 0, 5 * 2 ^ 1, 5 * 2 ^ 2, 5 * 2 ^ 3] = _
    rw [ddg_step oracle 4 5 _ m4 h4 r4 (by omega)]
    show ddgGo oracle 5 (4 + 1)
      [5 * 2 ^ 0, 5 * 2 ^ 1, 5 * 2 ^ 2, 5 * 2 ^ 3, 5 * 2 ^ 4] = _
    rw [ddg_step oracle 5 4 _ m5 h5 r5 (by omega)]
    show ddgGo oracle 6 (3 + 1)
      [5 * 2 ^ 0, 5 * 2 ^ 1, 5 * 2 ^ 2, 5 * 2 ^ 3, 5 * 2 ^ 4, 5 * 2 ^ 5] = _
    rw [ddg_step oracle 6 3 _ m6 h6 r6 (by omega)]
    show ddgGo oracle 7 (2 + 1)
      [5 * 2 ^ 0, 5 * 2 ^ 1, 5 * 2 ^ 2, 5 * 2 ^ 3, 5 * 2 ^ 4, 5 * 2 ^ 5, 5 * 2 ^ 6] = _
    rw [ddg_step oracle 7 2 _ m7 h7 r7 (by omega)]
    show ddgGo oracle 8 (1 + 1)
      [5 * 2 ^ 0, 5 * 2 ^ 1, 5 * 2 ^ 2, 5 * 2 ^ 3, 5 * 2 ^ 4, 5 * 2 ^ 5, 5 * 2 ^ 6,
       5 * 2 ^ 7] = _
    rw [ddg_step oracle 8 1 _ m8 h8 r8 (by omega)]
    show ddgGo oracle 9 (0 + 1)
      [5 * 2 ^ 0, 5 * 2 ^ 1, 5 * 2 ^ 2, 5 * 2 ^ 3, 5 * 2 ^ 4, 5 * 2 ^ 5, 5 * 2 ^ 6,
       5 * 2 ^ 7, 5 * 2 ^ 8] = _
    rw [ddg_last oracle 0 _ m9 h9]
    rfl
  rw [hrun]
  exact ⟨rfl, m9, rfl⟩

/-- Witness for C1 at the oracle whose every attempt raises
`DuckDuckGoSearchException("Ratelimit hit")`. -/
theorem ddg_backoff_exhaustion_witness :
    (duckduckgo_search (fun _ => SearchOutcome.exn "Ratelimit hit")).delays =
      (List.range 9).map (fun k => 5 * 2 ^ k) ∧
    ∃ e, (duckduckgo_search (fun _ => SearchOutcome.exn "Ratelimit hit")).outcome =
      Except.error e :=
  ddg_backoff_exhaustion (fun _ => SearchOutcome.exn "Ratelimit hit")
    (fun _ _ => ⟨"Ratelimit hit", rfl, by decide⟩)

/-! ## Claim C5 -/

/-- C5: the run driver builds the extraction source link by appending
`/about` to the cached link, and the link stored by `get_np_info` is the
source link with its final path segment stripped, so the two operations
round-trip to the cached link, whatever JSON the extractor returned. -/
theorem about_suffix_roundtrip (rec : Record) (nm L : String) :
    buildSourceLink L = L ++ "/about" ∧
    alGet (assembleRecord rec nm (buildSourceLink L)) "link" = some (.str L) := by
  refine ⟨rfl, ?_⟩
  unfold assembleRecord buildSourceLink
  rw [alGet_alSet_self, rsplit_about]

/-! ## Length lemmas for the two loops -/

lemma cdLoop_lengths : ∀ (pending acc : List (String × Record)) (t : Table)
    (t' : Table) (d' : List (String × Record)),
    cdLoop pending acc t = .ok (t', d') →
    t'.rows.length = t.rows.length + pending.length ∧
    d'.length = acc.length + pending.length := by
  intro pending
  induction pending with
  | nil =>
    intro acc t t' d' h
    simp only [cdLoop, Except.ok.injEq, Prod.mk.injEq] at h
    obtain ⟨h1, h2⟩ := h
    subst h1; subst h2
    simp
  | cons hd rest ih =>
    obtain ⟨k, r⟩ := hd
    intro acc t t' d' h
    cases hv : alGet r "contacts" with
    | none => simp [cdLoop, hv] at h
    | some v =>
      simp only [cdLoop, hv] at h
      by_cases hrow : rowOk (alSet r "contacts" (.str (strSlice1m1 (pyStr v)))) = true
      · rw [if_pos hrow] at h
        obtain ⟨h1, h2⟩ := ih _ _ _ _ h
        simp only [List.length_append, List.length_cons, List.length_nil] at h1 h2 ⊢
        omega
      · rw [if_neg hrow] at h
        simp at h

lemma npLoop_dict_len (run : Nat → SubprocResult) (parse : String → Option Record)
    (limit : Nat) (links names : List String) :
    ∀ (ns : List Nat) (st st' : NpState),
    npLoop run parse limit links names ns st = .ok st' →
    st'.dict.length ≤ st.dict.length +
      (ns.filter (fun k => !decide ((run k).stdout = ""))).length := by
  intro ns
  induction ns with
  | nil =>
    intro st st' h
    simp only [npLoop, Except.ok.injEq] at h
    subst h
    simp
  | cons n ns ih =>
    intro st st' h
    simp only [npLoop] at h
    by_cases hb : n < links.length ∧ n < names.length
    · rw [if_pos hb] at h
      by_cases hs : (run n).stdout = ""
      · rw [if_pos hs] at h
        have h1 := ih _ _ h
        have hneg : (!decide ((run n).stdout = "")) = false := by simp [hs]
        simp only [List.filter_cons, hneg, Bool.false_eq_true, if_false]
        simpa using h1
      · rw [if_neg hs] at h
        cases hp : parse (run n).stdout with
        | none => rw [hp] at h; simp at h
        | some rec =>
          rw [hp] at h
          have h1 := ih _ _ h
          have h2 := length_alSet_le st.dict (names.getD n "")
            (assembleRecord rec (names.getD n "") (links.getD n ""))
          have hpos : (!decide ((run n).stdout = "")) = true := by simp [hs]
          simp only [List.filter_cons, hpos, if_true, List.length_cons]
          dsimp only at h1
          omega
    · rw [if_neg hb] at h
      simp at h

/-! ## Claim C2 -/

/-- C2: for every batch size `n` and every `limit ≤ n`, the table produced
by `get_np_info` followed by `create_database` has at most `limit` rows, and
its row count never exceeds the number of organizations among the first
`limit` for which the extraction subprocess returned non-empty stdout. -/
theorem info_table_row_bound (run : Nat → SubprocResult) (parse : String → Option Record)
    (n limit : Nat) (links names : List String)
    (hlinks : links.length = n) (hnames : names.length = n) (hlim : limit ≤ n)
    (st : NpState) (t : Table) (d2 : List (String × Record))
    (hst : get_np_info run parse limit links names = .ok st)
    (hdb : create_database st.dict = .ok (t, d2)) :
    t.rows.length ≤ limit ∧
    t.rows.length ≤
      ((List.range limit).filter (fun k => !decide ((run k).stdout = ""))).length := by
  have hrows := (cdLoop_lengths st.dict [] ⟨npColumns, []⟩ t d2 hdb).1
  have hlen := npLoop_dict_len run parse limit links names (List.range limit) ⟨[], [], []⟩ st hst
  have hfil : ((List.range limit).filter (fun k => !decide ((run k).stdout = ""))).length
      ≤ limit := by
    have := List.length_filter_le (fun k => !decide ((run k).stdout = "")) (List.range limit)
    simpa using this
  dsimp only at hrows hlen
  simp only [List.length_nil, Nat.zero_add] at hrows hlen
  omega

/-- Extraction oracle for the C2 witness: organization 0 succeeds,
organization 1 returns empty stdout. -/
def c2run : Nat → SubprocResult :=
  fun k => if k = 0 then ⟨"J", ""⟩ else ⟨"", "no output"⟩

/-- JSON parser for the C2 witness. -/
def c2parse : String → Option Record :=
  fun s => if s = "J" then some [("contacts", PyVal.list ["a@x.org"])] else none

/-- Witness for C2 at a two-organization batch with one success. -/
theorem info_table_row_bound_witness :
    (Table.mk npColumns
        [[("contacts", PyVal.str "'a@x.org'"), ("name", PyVal.str "A"),
          ("link", PyVal.str "http://a")]]).rows.length ≤ 2 ∧
    (Table.mk npColumns
        [[("contacts", PyVal.str "'a@x.org'"), ("name", PyVal.str "A"),
          ("link", PyVal.str "http://a")]]).rows.length ≤
      ((List.range 2).filter (fun k => !decide ((c2run k).stdout = ""))).length :=
  info_table_row_bound c2run c2parse 2 2
    ["http://a/about", "http://b/about"] ["A", "B"] rfl rfl (by omega)
    ⟨[("A", [("contacts", PyVal.list ["a@x.org"]), ("name", PyVal.str "A"),
        ("link", PyVal.str "http://a")])],
      ["2/2 | B\nno output"], [0, 1]⟩
    (Table.mk npColumns
      [[("contacts", PyVal.str "'a@x.org'"), ("name", PyVal.str "A"),
        ("link", PyVal.str "http://a")]])
    [("A", [("contacts", PyVal.str "'a@x.org'"), ("name", PyVal.str "A"),
        ("link", PyVal.str "http://a")])]
    rfl rfl

/-! ## Claim C3 -/

lemma npLoop_mem (run : Nat → SubprocResult) (parse : String → Option Record)
    (limit : Nat) (links names : List String) :
    ∀ (ns : List Nat) (st st' : NpState),
    npLoop run parse limit links names ns st = .ok st' →
    ∀ e, e ∈ st'.dict → e ∈ st.dict ∨
      ∃ n, n ∈ ns ∧ n < links.length ∧ n < names.length ∧ e.1 = names.getD n "" ∧
        ∃ rec, parse (run n).stdout = some rec ∧
          e.2 = assembleRecord rec (names.getD n "") (links.getD n "") := by
  intro ns
  induction ns with
  | nil =>
    intro st st' h e he
    simp only [npLoop, Except.ok.injEq] at h
    subst h
    exact .inl he
  | cons n ns ih =>
    intro st st' h e he
    simp only [npLoop] at h
    by_cases hb : n < links.length ∧ n < names.length
    · rw [if_pos hb] at h
      by_cases hs : (run n).stdout = ""
      · rw [if_pos hs] at h
        rcases ih _ _ h e he with h1 | ⟨m, hm, rest⟩
        · exact .inl h1
        · exact .inr ⟨m, List.mem_cons_of_mem _ hm, rest⟩
      · rw [if_neg hs] at h
        cases hp : parse (run n).stdout with
        | none => rw [hp] at h; simp at h
        | some rec =>
          rw [hp] at h
          rcases ih _ _ h e he with h1 | ⟨m, hm, rest⟩
          · dsimp only at h1
            rcases mem_alSet _ _ _ _ h1 with h2 | h2
            · exact .inl h2
            · refine .inr ⟨n, List.mem_cons_self _ _, hb.1, hb.2, ?_, rec, hp, ?_⟩
              · rw [h2]
              · rw [h2]
          · exact .inr ⟨m, List.mem_cons_of_mem _ hm, rest⟩
    · rw [if_neg hb] at h
      simp at h

/-- C3: every record stored by `get_np_info` carries the caller-supplied
name as its `name` field and, as its `link` field, the caller-supplied
source URL with its final path segment removed — regardless of the `name`
or `link` values in the extractor's JSON. -/
theorem record_name_link_authoritative (run : Nat → SubprocResult)
    (parse : String → Option Record) (limit : Nat) (links names : List String)
    (st : NpState) (hst : get_np_info run parse limit links names = .ok st) :
    ∀ k r, (k, r) ∈ st.dict →
      alGet r "name" = some (PyVal.str k) ∧
      ∃ n, n < limit ∧ names.getD n "" = k ∧
        alGet r "link" = some (PyVal.str (rsplitBeforeLast (links.getD n ""))) := by
  intro k r hmem
  rcases npLoop_mem run parse limit links names (List.range limit) ⟨[], [], []⟩ st hst
      (k, r) hmem with h | ⟨n, hn, hl1, hl2, hk, rec, hp, hr⟩
  · simp at h
  · have hk' : k = names.getD n "" := hk
    have hr' : r = assembleRecord rec (names.getD n "") (links.getD n "") := hr
    have hname : alGet r "name" = some (PyVal.str (names.getD n "")) := by
      rw [hr']
      unfold assembleRecord
      rw [alGet_alSet_ne _ _ _ _ (by decide), alGet_alSet_self]
    have hlink : alGet r "link" = some (PyVal.str (rsplitBeforeLast (links.getD n ""))) := by
      rw [hr']
      unfold assembleRecord
      rw [alGet_alSet_self]
    refine ⟨by rw [hname, ← hk'], n, by simpa using hn, hk'.symm, hlink⟩

/-- Extraction oracle for the C3 witness: the extractor echoes back its own
`name` and `link` values, which must be overwritten. -/
def c3run : Nat → SubprocResult := fun _ => ⟨"J3", ""⟩

/-- JSON parser for the C3 witness. -/
def c3parse : String → Option Record := fun s =>
  if s = "J3" then
    some [("name", PyVal.str "X"), ("location", PyVal.str "Y"),
          ("link", PyVal.str "http://evil")]
  else none

/-- The record `get_np_info` stores for the C3 witness organization. -/
def c3rec : Record :=
  [("name", PyVal.str "Real Org"), ("location", PyVal.str "Y"),
   ("link", PyVal.str "http://org")]

/-- Witness for C3: the extractor's `name` / `link` values are overwritten
by the authoritative ones. -/
theorem record_name_link_authoritative_witness :
    alGet c3rec "name" = some (PyVal.str "Real Org") ∧
    ∃ n, n < 1 ∧ ["Real Org"].getD n "" = "Real Org" ∧
      alGet c3rec "link" =
        some (PyVal.str (rsplitBeforeLast (["http://org/about"].getD n ""))) :=
  record_name_link_authoritative c3run c3parse 1 ["http://org/about"] ["Real Org"]
    ⟨[("Real Org", c3rec)], [], [0]⟩ rfl "Real Org" c3rec (by simp)

/-! ## Exact characterizations of the two loops -/

/-- When every pending index is in range, every successful extraction
parses, and the processed names are fresh and pairwise distinct, the
`get_np_info` loop succeeds and its final state is explicit: one dict entry
per success in order, one diagnostic per failure in order, one subprocess
call per index. -/
lemma npLoop_exact (run : Nat → SubprocResult) (parse : String → Option Record)
    (limit : Nat) (links names : List String) :
    ∀ (ns : List Nat) (st : NpState),
    (∀ n ∈ ns, n < links.length ∧ n < names.length) →
    (∀ n ∈ ns, ¬(run n).stdout = "" → (parse (run n).stdout).isSome) →
    (∀ n ∈ ns, names.getD n "" ∉ st.dict.map Prod.fst) →
    List.Pairwise (fun a b => names.getD a "" ≠ names.getD b "") ns →
    npLoop run parse limit links names ns st = .ok
      ⟨st.dict ++ (ns.filter (fun n => !decide ((run n).stdout = ""))).map (fun n =>
          (names.getD n "", assembleRecord ((parse (run n).stdout).getD [])
            (names.getD n "") (links.getD n ""))),
        st.log ++ (ns.filter (fun n => decide ((run n).stdout = ""))).map (fun n =>
          diagMsg n limit (names.getD n "") (run n).stderr),
        st.calls ++ ns⟩ := by
  intro ns
  induction ns with
  | nil =>
    intro st _ _ _ _
    simp [npLoop]
  | cons n ns ih =>
    intro st hin hp hkeys hnd
    have hb := hin n (List.mem_cons_self _ _)
    have hin' : ∀ m ∈ ns, m < links.length ∧ m < names.length :=
      fun m hm => hin m (List.mem_cons_of_mem _ hm)
    have hp' : ∀ m ∈ ns, ¬(run m).stdout = "" → (parse (run m).stdout).isSome :=
      fun m hm => hp m (List.mem_cons_of_mem _ hm)
    have hnd' : List.Pairwise (fun a b => names.getD a "" ≠ names.getD b "") ns :=
      hnd.of_cons
    have hhead : ∀ m ∈ ns, names.getD n "" ≠ names.getD m "" :=
      fun m hm => List.rel_of_pairwise_cons hnd hm
    simp only [npLoop]
    rw [if_pos hb]
    by_cases hs : (run n).stdout = ""
    · rw [if_pos hs]
      have hkeys2 : ∀ m ∈ ns, names.getD m "" ∉
          (NpState.mk st.dict
            (st.log ++ [diagMsg n limit (names.getD n "") (run n).stderr])
            (st.calls ++ [n])).dict.map Prod.fst :=
        fun m hm => hkeys m (List.mem_cons_of_mem _ hm)
      rw [ih _ hin' hp' hkeys2 hnd']
      have hq : decide ((run n).stdout = "") = true := by simp [hs]
      simp only [List.filter_cons, hq, Bool.not_true, Bool.false_eq_true, if_false, if_true,
        List.map_cons]
      simp [List.append_assoc]
    · rw [if_neg hs]
      obtain ⟨rec, hrec⟩ := Option.isSome_iff_exists.mp (hp n (List.mem_cons_self _ _) hs)
      simp only [hrec]
      have halset : alSet st.dict (names.getD n "")
          (assembleRecord rec (names.getD n "") (links.getD n "")) =
          st.dict ++ [(names.getD n "",
            assembleRecord rec (names.getD n "") (links.getD n ""))] :=
        alSet_of_not_mem_keys _ _ _ (hkeys n (List.mem_cons_self _ _))
      have hkeys' : ∀ m ∈ ns, names.getD m "" ∉
          (NpState.mk (st.dict ++ [(names.getD n "",
              assembleRecord rec (names.getD n "") (links.getD n ""))])
            st.log (st.calls ++ [n])).dict.map Prod.fst := by
        intro m hm
        simp only [List.map_append, List.mem_append, List.map_cons, List.map_nil,
          List.mem_cons, List.not_mem_nil]
        push_neg
        exact ⟨hkeys m (List.mem_cons_of_mem _ hm),
          fun hc => (hhead m hm) hc.symm, fun hc => hc⟩
      rw [show (NpState.mk (alSet st.dict (names.getD n "")
            (assembleRecord rec (names.getD n "") (links.getD n "")))
            st.log (st.calls ++ [n])) =
          (NpState.mk (st.dict ++ [(names.getD n "",
              assembleRecord rec (names.getD n "") (links.getD n ""))])
            st.log (st.calls ++ [n])) by rw [halset]]
      rw [ih _ hin' hp' hkeys' hnd']
      have hq : decide ((run n).stdout = "") = false := by simp [hs]
      simp only [List.filter_cons, hq, Bool.not_false, Bool.false_eq_true, if_false, if_true,
        List.map_cons, hrec, Option.getD_some]
      simp [List.append_assoc]

/-- A filter over a duplicate-free list whose predicate holds at exactly one
member picks out exactly that member. -/
lemma filter_eq_singleton : ∀ (l : List Nat) (q : Nat → Bool) (k : Nat),
    l.Nodup → k ∈ l → q k = true → (∀ n ∈ l, n ≠ k → q n = false) →
    l.filter q = [k] := by
  intro l
  induction l with
  | nil => intro q k _ hk; simp at hk
  | cons a l ih =>
    intro q k hnd hk hqk hothers
    rcases List.mem_cons.mp hk with rfl | hk'
    · have hnil : l.filter q = [] := by
        rw [List.filter_eq_nil_iff]
        intro b hb
        have hbk : b ≠ k := by
          intro hc
          subst hc
          exact (List.nodup_cons.mp hnd).1 hb
        simp [hothers b (List.mem_cons_of_mem _ hb) hbk]
      simp [List.filter_cons, hqk, hnil]
    · have hak : a ≠ k := by
        intro hc
        subst hc
        exact (List.nodup_cons.mp hnd).1 hk'
      have hqa : q a = false := hothers a (List.mem_cons_self _ _) hak
      simp only [List.filter_cons, hqa, Bool.false_eq_true, if_false]
      exact ih q k (List.nodup_cons.mp hnd).2 hk' hqk
        (fun n hn => hothers n (List.mem_cons_of_mem _ hn))

/-- The lengths of a filter and of its complement add up to the list's
length. -/
lemma length_filter_add_not : ∀ (l : List Nat) (q : Nat → Bool),
    (l.filter q).length + (l.filter (fun a => !q a)).length = l.length := by
  intro l
  induction l with
  | nil => intro q; simp
  | cons a l ih =>
    intro q
    cases hqa : q a <;>
      simp [List.filter_cons, hqa, ← ih q] <;> omega

/-- When every pending record has a `contacts` field and, once its contacts
are flattened, is accepted by the single-row DataFrame constructor, the
`create_database` loop succeeds and both the table and the mutated
dictionary are explicit. -/
lemma cdLoop_eq_of_contacts : ∀ (pending acc : List (String × Record)) (t : Table),
    (∀ e ∈ pending, (alGet e.2 "contacts").isSome ∧ rowOk (mutContacts e.2) = true) →
    cdLoop pending acc t = .ok
      (⟨pending.foldl (fun cs e => addCols cs (mutContacts e.2)) t.columns,
        t.rows ++ pending.map (fun e => mutContacts e.2)⟩,
       acc ++ pending.map (fun e => (e.1, mutContacts e.2))) := by
  intro pending
  induction pending with
  | nil =>
    intro acc t _
    simp [cdLoop]
  | cons hd rest ih =>
    obtain ⟨k, r⟩ := hd
    intro acc t hc
    obtain ⟨v, hv⟩ :=
      Option.isSome_iff_exists.mp (hc (k, r) (List.mem_cons_self _ _)).1
    have hmut : mutContacts r = alSet r "contacts" (.str (strSlice1m1 (pyStr v))) := by
      rw [mutContacts, hv]
    have hrow : rowOk (alSet r "contacts" (.str (strSlice1m1 (pyStr v)))) = true := by
      rw [← hmut]
      exact (hc (k, r) (List.mem_cons_self _ _)).2
    simp only [cdLoop, hv]
    rw [if_pos hrow, ih _ _ (fun e he => hc e (List.mem_cons_of_mem _ he))]
    simp only [List.foldl_cons, List.map_cons, hmut]
    simp [List.append_assoc]

/-- Function `create_database` on a dictionary whose every record has a `contacts`
field and survives the single-row DataFrame construction: explicit output
table and mutated dictionary. -/
lemma create_database_eq (d : List (String × Record))
    (h : ∀ e ∈ d, (alGet e.2 "contacts").isSome ∧ rowOk (mutContacts e.2) = true) :
    create_database d = .ok
      (⟨d.foldl (fun cs e => addCols cs (mutContacts e.2)) npColumns,
        d.map (fun e => mutContacts e.2)⟩,
       d.map (fun e => (e.1, mutContacts e.2))) := by
  unfold create_database
  rw [cdLoop_eq_of_contacts d [] ⟨npColumns, []⟩ h]
  simp

/-! ## Claim C4 -/

lemma alGet_mutContacts_ne (r : Record) (f : String) (hf : f ≠ "contacts") :
    alGet (mutContacts r) f = alGet r f := by
  unfold mutContacts
  cases hv : alGet r "contacts" with
  | none => rfl
  | some v => exact alGet_alSet_ne _ _ _ _ (fun hc => hf hc.symm)

lemma alGet_assembleRecord_contacts (rec : Record) (nm lk : String) :
    alGet (assembleRecord rec nm lk) "contacts" = alGet rec "contacts" := by
  unfold assembleRecord
  rw [alGet_alSet_ne _ _ _ _ (by decide), alGet_alSet_ne _ _ _ _ (by decide)]

lemma alGet_assembleRecord_name (rec : Record) (nm lk : String) :
    alGet (assembleRecord rec nm lk) "name" = some (PyVal.str nm) := by
  unfold assembleRecord
  rw [alGet_alSet_ne _ _ _ _ (by decide), alGet_alSet_self]

/-- C4: if the extraction subprocess returns empty stdout for exactly one
organization `k` among the first `limit` (and succeeds for all others, with
parseable JSON carrying a `contacts` field and otherwise accepted by the
single-row DataFrame constructor of line 228, under distinct names), the
final table contains exactly `limit - 1` rows with organization `k` omitted
entirely — its name keys no dict entry and heads no row — the diagnostic
with organization `k`'s index, name and stderr is printed, and the
extraction subprocess is invoked exactly once for `k` (no retry). -/
theorem single_failure_omits_row (run : Nat → SubprocResult)
    (parse : String → Option Record) (limit : Nat) (links names : List String)
    (k : Nat) (hk : k < limit)
    (hlinks : limit ≤ links.length) (hnames : limit ≤ names.length)
    (hfail : (run k).stdout = "")
    (hsucc : ∀ n, n < limit → n ≠ k →
      ¬(run n).stdout = "" ∧ (parse (run n).stdout).isSome)
    (hnd : ∀ i j, i < limit → j < limit → i ≠ j → names.getD i "" ≠ names.getD j "")
    (hcont : ∀ n, n < limit → n ≠ k →
      (alGet ((parse (run n).stdout).getD []) "contacts").isSome ∧
      rowOk (mutContacts (assembleRecord ((parse (run n).stdout).getD [])
        (names.getD n "") (links.getD n ""))) = true) :
    ∃ st t d2,
      get_np_info run parse limit links names = .ok st ∧
      create_database st.dict = .ok (t, d2) ∧
      t.rows.length = limit - 1 ∧
      names.getD k "" ∉ st.dict.map Prod.fst ∧
      (∀ r ∈ t.rows, alGet r "name" ≠ some (PyVal.str (names.getD k ""))) ∧
      diagMsg k limit (names.getD k "") (run k).stderr ∈ st.log ∧
      st.calls.count k = 1 := by
  have hexact := npLoop_exact run parse limit links names (List.range limit) ⟨[], [], []⟩
    (fun n hn => by
      have := List.mem_range.mp hn
      exact ⟨by omega, by omega⟩)
    (fun n hn hne => by
      have hn' := List.mem_range.mp hn
      by_cases hnk : n = k
      · subst hnk; exact absurd hfail hne
      · exact (hsucc n hn' hnk).2)
    (fun n hn => by simp)
    (by
      refine (List.pairwise_lt_range limit).imp_of_mem ?_
      intro a b ha hb hab
      exact hnd a b (List.mem_range.mp ha) (List.mem_range.mp hb) (Nat.ne_of_lt hab))
  have hfilfail : (List.range limit).filter (fun n => decide ((run n).stdout = "")) = [k] := by
    refine filter_eq_singleton _ _ _ (List.nodup_range limit)
      (List.mem_range.mpr hk) (by simp [hfail]) ?_
    intro n hn hnk
    simp [(hsucc n (List.mem_range.mp hn) hnk).1]
  have hlenS : ((List.range limit).filter
      (fun n => !decide ((run n).stdout = ""))).length = limit - 1 := by
    have hadd := length_filter_add_not (List.range limit)
      (fun n => decide ((run n).stdout = ""))
    rw [hfilfail] at hadd
    simp only [List.length_cons, List.length_nil, List.length_range] at hadd
    omega
  have hmemS : ∀ n, n ∈ (List.range limit).filter
      (fun n => !decide ((run n).stdout = "")) → n < limit ∧ n ≠ k := by
    intro n hn
    have h1 := List.mem_filter.mp hn
    refine ⟨List.mem_range.mp h1.1, ?_⟩
    intro hc
    subst hc
    simp [hfail] at h1
  have hcdict : ∀ e ∈ (NpState.mk
      ([] ++ ((List.range limit).filter (fun n => !decide ((run n).stdout = ""))).map
        (fun n => (names.getD n "", assembleRecord ((parse (run n).stdout).getD [])
          (names.getD n "") (links.getD n ""))))
      ([] ++ ((List.range limit).filter (fun n => decide ((run n).stdout = ""))).map
        (fun n => diagMsg n limit (names.getD n "") (run n).stderr))
      ([] ++ List.range limit)).dict,
      (alGet e.2 "contacts").isSome ∧ rowOk (mutContacts e.2) = true := by
    intro e he
    simp only [List.nil_append] at he
    obtain ⟨n, hn, rfl⟩ := List.mem_map.mp he
    obtain ⟨hnlim, hnk⟩ := hmemS n hn
    refine ⟨?_, (hcont n hnlim hnk).2⟩
    show (alGet (assembleRecord _ _ _) "contacts").isSome = true
    rw [alGet_assembleRecord_contacts]
    exact (hcont n hnlim hnk).1
  refine ⟨_, _, _, hexact, create_database_eq _ hcdict, ?_, ?_, ?_, ?_, ?_⟩
  · dsimp only
    simp only [List.nil_append, List.length_append, List.length_map, List.length_nil]
    simpa using hlenS
  · dsimp only
    simp only [List.nil_append, List.map_map, List.mem_map]
    rintro ⟨n, hn, hc⟩
    obtain ⟨hnlim, hnk⟩ := hmemS n hn
    exact hnd n k hnlim hk hnk hc
  · dsimp only
    simp only [List.nil_append, List.map_map, List.mem_map]
    rintro r ⟨n, hn, rfl⟩
    obtain ⟨hnlim, hnk⟩ := hmemS n hn
    intro hc
    rw [Function.comp_apply] at hc
    rw [alGet_mutContacts_ne _ _ (by decide), alGet_assembleRecord_name] at hc
    have : names.getD n "" = names.getD k "" := by
      simpa using hc
    exact hnd n k hnlim hk hnk this
  · dsimp only
    rw [hfilfail]
    simp
  · dsimp only
    simp only [List.nil_append]
    exact List.count_eq_one_of_mem (List.nodup_range limit) (List.mem_range.mpr hk)

/-- Extraction oracle for the C4 witness: organization 0 fails with empty
stdout, organization 1 succeeds. -/
def c4run : Nat → SubprocResult :=
  fun n => if n = 0 then ⟨"", "boom"⟩ else ⟨"J4", ""⟩

/-- JSON parser for the C4 witness. -/
def c4parse : String → Option Record :=
  fun s => if s = "J4" then some [("contacts", PyVal.list ["c@b.org"])] else none

/-- Witness for C4 at a two-organization batch whose first organization
fails. -/
theorem single_failure_omits_row_witness :
    ∃ st t d2,
      get_np_info c4run c4parse 2 ["http://a/about", "http://b/about"] ["A", "B"] =
        .ok st ∧
      create_database st.dict = .ok (t, d2) ∧
      t.rows.length = 2 - 1 ∧
      ["A", "B"].getD 0 "" ∉ st.dict.map Prod.fst ∧
      (∀ r ∈ t.rows, alGet r "name" ≠ some (PyVal.str (["A", "B"].getD 0 ""))) ∧
      diagMsg 0 2 (["A", "B"].getD 0 "") (c4run 0).stderr ∈ st.log ∧
      st.calls.count 0 = 1 :=
  single_failure_omits_row c4run c4parse 2 ["http://a/about", "http://b/about"]
    ["A", "B"] 0 (by omega) (by decide) (by decide) rfl (by decide)
    (by intro i j hi hj hij; interval_cases i <;> interval_cases j <;> revert hij <;> decide)
    (by decide)

/-! ## Claim C10 -/

lemma cdLoop_contacts_of_ok : ∀ (pending acc : List (String × Record)) (t : Table)
    (t' : Table) (d' : List (String × Record)),
    cdLoop pending acc t = .ok (t', d') →
    ∀ e ∈ pending, (alGet e.2 "contacts").isSome ∧ rowOk (mutContacts e.2) = true := by
  intro pending
  induction pending with
  | nil => intro acc t t' d' _ e he; simp at he
  | cons hd rest ih =>
    obtain ⟨k, r⟩ := hd
    intro acc t t' d' h e he
    cases hv : alGet r "contacts" with
    | none => simp [cdLoop, hv] at h
    | some v =>
      simp only [cdLoop, hv] at h
      by_cases hrow : rowOk (alSet r "contacts" (.str (strSlice1m1 (pyStr v)))) = true
      · rw [if_pos hrow] at h
        rcases List.mem_cons.mp he with rfl | he'
        · refine ⟨by simp [hv], ?_⟩
          show rowOk (mutContacts r) = true
          rw [mutContacts, hv]
          exact hrow
        · exact ih _ _ _ _ h e he'
      · rw [if_neg hrow] at h
        simp at h

/-- C10: `create_database` mutates its input mapping — after the call every
entry's `contacts` field has been replaced in place by its flattened string
form, and every other field of every entry is unchanged. -/
theorem create_database_mutates_contacts (d : List (String × Record)) (t : Table)
    (d2 : List (String × Record)) (hdb : create_database d = .ok (t, d2)) :
    ∀ i k r, d.get? i = some (k, r) →
      ∃ v, alGet r "contacts" = some v ∧
        d2.get? i = some (k, alSet r "contacts" (.str (strSlice1m1 (pyStr v)))) ∧
        ∀ f, f ≠ "contacts" →
          alGet (alSet r "contacts" (.str (strSlice1m1 (pyStr v)))) f = alGet r f := by
  have hall := cdLoop_contacts_of_ok d [] ⟨npColumns, []⟩ t d2 hdb
  have heq := create_database_eq d hall
  rw [hdb] at heq
  simp only [Except.ok.injEq, Prod.mk.injEq] at heq
  obtain ⟨-, hd2⟩ := heq
  intro i k r hi
  obtain ⟨v, hv⟩ := Option.isSome_iff_exists.mp (hall (k, r) (List.get?_mem hi)).1
  refine ⟨v, hv, ?_, ?_⟩
  · rw [hd2, List.get?_map, hi]
    simp [mutContacts, hv]
  · intro f hf
    exact alGet_alSet_ne _ _ _ _ (fun hc => hf hc.symm)

/-- The original record of the C10 witness dictionary. -/
def c10rec : Record :=
  [("contacts", PyVal.list ["a@x.org", "555-1234"]), ("size", PyVal.str "5")]

/-- The C10 witness dictionary after mutation. -/
def c10mut : Record :=
  [("contacts", PyVal.str "'a@x.org', '555-1234'"), ("size", PyVal.str "5")]

/-- Witness for C10 at a one-entry dictionary with a two-element contact
list. -/
theorem create_database_mutates_contacts_witness :
    ∃ v, alGet c10rec "contacts" = some v ∧
      [("Org", c10mut)].get? 0 =
        some ("Org", alSet c10rec "contacts" (.str (strSlice1m1 (pyStr v)))) ∧
      ∀ f, f ≠ "contacts" →
        alGet (alSet c10rec "contacts" (.str (strSlice1m1 (pyStr v)))) f =
          alGet c10rec f :=
  create_database_mutates_contacts [("Org", c10rec)]
    ⟨npColumns, [c10mut]⟩ [("Org", c10mut)] rfl 0 "Org" c10rec rfl

/-! ## Claim C7 -/

lemma string_append_assoc (a b c : String) : (a ++ b) ++ c = a ++ (b ++ c) := by
  obtain ⟨da⟩ := a
  obtain ⟨db⟩ := b
  obtain ⟨dc⟩ := c
  show String.mk ((da ++ db) ++ dc) = String.mk (da ++ (db ++ dc))
  rw [List.append_assoc]

lemma strip_brackets (m : String) : strSlice1m1 ("[" ++ m ++ "]") = m := by
  obtain ⟨dm⟩ := m
  show String.mk (((('[' :: dm) ++ [']']).drop 1).dropLast) = String.mk dm
  rw [List.cons_append, List.drop_succ_cons, List.drop_zero, List.dropLast_concat]

/-- Every member of a list occurs, quoted, inside the comma join of the
quoted list. -/
lemma joinComma_contains : ∀ (l : List String) (s : String), s ∈ l →
    ∃ p q : String, joinComma (l.map quoteStr) = p ++ s ++ q := by
  intro l
  induction l with
  | nil => intro s hs; simp at hs
  | cons x rest ih =>
    intro s hs
    rcases List.mem_cons.mp hs with rfl | hs'
    · cases rest with
      | nil => exact ⟨"'", "'", rfl⟩
      | cons y ys =>
        refine ⟨"'", "'" ++ ", " ++ joinComma ((y :: ys).map quoteStr), ?_⟩
        show quoteStr s ++ ", " ++ joinComma ((y :: ys).map quoteStr) = _
        unfold quoteStr
        simp [string_append_assoc]
    · have hne : rest ≠ [] := by
        intro hc
        rw [hc] at hs'
        simp at hs'
      obtain ⟨p, q, hpq⟩ := ih s hs'
      cases rest with
      | nil => exact absurd rfl hne
      | cons y ys =>
        refine ⟨quoteStr x ++ ", " ++ p, q, ?_⟩
        show quoteStr x ++ ", " ++ joinComma ((y :: ys).map quoteStr) = _
        rw [hpq]
        simp [string_append_assoc]

/-- C7: the value stored in the `contacts` column for a record whose
contacts field is a list is a single string equal to the list's textual
representation with the outermost bracket characters stripped, and it
contains every value of the list. -/
theorem contacts_flattening (d : List (String × Record)) (t : Table)
    (d2 : List (String × Record)) (hdb : create_database d = .ok (t, d2))
    (i : Nat) (k : String) (r : Record) (l : List String)
    (hi : d.get? i = some (k, r))
    (hc : alGet r "contacts" = some (PyVal.list l)) :
    ∃ r2, t.rows.get? i = some r2 ∧
      alGet r2 "contacts" = some (PyVal.str (strSlice1m1 (pyStr (PyVal.list l)))) ∧
      strSlice1m1 (pyStr (PyVal.list l)) = joinComma (l.map quoteStr) ∧
      ∀ s ∈ l, ∃ p q : String,
        strSlice1m1 (pyStr (PyVal.list l)) = p ++ s ++ q := by
  have hall := cdLoop_contacts_of_ok d [] ⟨npColumns, []⟩ t d2 hdb
  have heq := create_database_eq d hall
  rw [hdb] at heq
  simp only [Except.ok.injEq, Prod.mk.injEq] at heq
  obtain ⟨ht, -⟩ := heq
  have hstrip : strSlice1m1 (pyStr (PyVal.list l)) = joinComma (l.map quoteStr) := by
    show strSlice1m1 ("[" ++ joinComma (l.map quoteStr) ++ "]") = _
    rw [strip_brackets]
  refine ⟨mutContacts r, ?_, ?_, hstrip, ?_⟩
  · rw [ht]
    show (d.map (fun e => mutContacts e.2)).get? i = _
    simp only [List.get?_eq_getElem?, List.getElem?_map]
    rw [← List.get?_eq_getElem?, hi]
    rfl
  · rw [mutContacts, hc]
    exact alGet_alSet_self _ _ _
  · intro s hs
    obtain ⟨p, q, hpq⟩ := joinComma_contains l s hs
    exact ⟨p, q, by rw [hstrip, hpq]⟩

/-- The C7 witness dictionary's record. -/
def c7rec : Record := [("contacts", PyVal.list ["a@x.org", "555-1234"])]

/-- The C7 witness record after flattening. -/
def c7mut : Record := [("contacts", PyVal.str "'a@x.org', '555-1234'")]

/-- Witness for C7 at the contact list `["a@x.org", "555-1234"]`. -/
theorem contacts_flattening_witness :
    ∃ r2, (Table.mk npColumns [c7mut]).rows.get? 0 = some r2 ∧
      alGet r2 "contacts" = some (PyVal.str (strSlice1m1 (pyStr
        (PyVal.list ["a@x.org", "555-1234"])))) ∧
      strSlice1m1 (pyStr (PyVal.list ["a@x.org", "555-1234"])) =
        joinComma (["a@x.org", "555-1234"].map quoteStr) ∧
      ∀ s ∈ ["a@x.org", "555-1234"], ∃ p q : String,
        strSlice1m1 (pyStr (PyVal.list ["a@x.org", "555-1234"])) = p ++ s ++ q :=
  contacts_flattening [("C7 Org", c7rec)] (Table.mk npColumns [c7mut])
    [("C7 Org", c7mut)] rfl 0 "C7 Org" c7rec ["a@x.org", "555-1234"] rfl rfl

/-! ## Claim C6 -/

lemma addCols_extends : ∀ (r : Record) (cs : List String),
    ∃ ext, addCols cs r = cs ++ ext := by
  intro r
  induction r with
  | nil => intro cs; exact ⟨[], by simp [addCols]⟩
  | cons kv rest ih =>
    intro cs
    have hstep : addCols cs (kv :: rest) =
        addCols (if cs.contains kv.1 then cs else cs ++ [kv.1]) rest := rfl
    by_cases hc : cs.contains kv.1
    · rw [hstep, if_pos hc]
      exact ih cs
    · rw [hstep, if_neg hc]
      obtain ⟨ext, hext⟩ := ih (cs ++ [kv.1])
      exact ⟨[kv.1] ++ ext, by rw [hext, List.append_assoc]⟩

lemma foldl_addCols_extends : ∀ (d : List (String × Record)) (cs : List String),
    ∃ ext, d.foldl (fun cs e => addCols cs (mutContacts e.2)) cs = cs ++ ext := by
  intro d
  induction d with
  | nil => intro cs; exact ⟨[], by simp⟩
  | cons hd rest ih =>
    intro cs
    obtain ⟨e1, he1⟩ := addCols_extends (mutContacts hd.2) cs
    obtain ⟨e2, he2⟩ := ih (addCols cs (mutContacts hd.2))
    refine ⟨e1 ++ e2, ?_⟩
    rw [List.foldl_cons, he2, he1, List.append_assoc]

lemma dtTag_eq (ts : LocalTime) :
    dtTag ts = pad2 (ts.year % 100) ++ pad2 ts.month ++ pad2 ts.day ++ "-" ++
      pad2 ts.hour ++ pad2 ts.minute := by
  have h1 : digitChar (ts.year / 10) = digitChar (ts.year % 100 / 10) := by
    unfold digitChar
    congr 1
    omega
  have h2 : digitChar ts.year = digitChar (ts.year % 100) := by
    unfold digitChar
    congr 1
    omega
  unfold dtTag strftimeYmdHM pad4 pad2
  rw [h1, h2]
  rfl

/-- C6 counterexample evaluator: the column list of a successful
`create_database` call. -/
def colsOf (e : Except String (Table × List (String × Record))) : List String :=
  match e with
  | .ok (t, _) => t.columns
  | .error _ => []

/-- C6 is refuted as stated: a record carrying a field outside the seven
fixed columns — here `type`, which the extraction prompt explicitly
requests — makes `pd.concat` append an extra column, so the header is not
exactly the seven columns. -/
theorem csv_header_counterexample :
    colsOf (create_database
      [("Org", [("contacts", PyVal.list []), ("type", PyVal.str "health")])]) ≠
      npColumns := by decide

/-- C6 (amended): the CSV header starts with the seven columns `name,
location, description, size, contacts, social_media, link` in that order,
with any extractor-supplied fields outside these seven appended after them;
there is one row per successfully extracted organization; and the file name
is `associations_{YYMMDD-HHMM}.csv` built from the current local
timestamp. -/
theorem csv_header_rows_filename (d : List (String × Record)) (t : Table)
    (d2 : List (String × Record)) (hdb : create_database d = .ok (t, d2)) :
    (∃ ext, t.columns = npColumns ++ ext) ∧
    t.rows.length = d.length ∧
    ∀ ts : LocalTime, ts.year < 10000 →
      save_db_filename ts = "associations_" ++
        (pad2 (ts.year % 100) ++ pad2 ts.month ++ pad2 ts.day ++ "-" ++
          pad2 ts.hour ++ pad2 ts.minute) ++ ".csv" := by
  have hall := cdLoop_contacts_of_ok d [] ⟨npColumns, []⟩ t d2 hdb
  have heq := create_database_eq d hall
  rw [hdb] at heq
  simp only [Except.ok.injEq, Prod.mk.injEq] at heq
  obtain ⟨ht, -⟩ := heq
  refine ⟨?_, ?_, ?_⟩
  · rw [ht]
    exact foldl_addCols_extends d npColumns
  · rw [ht]
    simp
  · intro ts _
    unfold save_db_filename
    rw [dtTag_eq]

/-- Witness for C6 (amended) at a dictionary with one extra-field record
and the timestamp 2026-10-12 09:30. -/
theorem csv_header_rows_filename_witness :
    (∃ ext, (Table.mk (npColumns ++ ["type"])
        [[("contacts", PyVal.str ""), ("type", PyVal.str "health")]]).columns =
      npColumns ++ ext) ∧
    (Table.mk (npColumns ++ ["type"])
        [[("contacts", PyVal.str ""), ("type", PyVal.str "health")]]).rows.length =
      [("Org", [("contacts", PyVal.list []), ("type", PyVal.str "health")])].length ∧
    ∀ ts : LocalTime, ts.year < 10000 →
      save_db_filename ts = "associations_" ++
        (pad2 (ts.year % 100) ++ pad2 ts.month ++ pad2 ts.day ++ "-" ++
          pad2 ts.hour ++ pad2 ts.minute) ++ ".csv" :=
  csv_header_rows_filename
    [("Org", [("contacts", PyVal.list []), ("type", PyVal.str "health")])]
    (Table.mk (npColumns ++ ["type"])
      [[("contacts", PyVal.str ""), ("type", PyVal.str "health")]])
    [("Org", [("contacts", PyVal.str ""), ("type", PyVal.str "health")])]
    rfl

/-! ## Claim C8 -/

/-- C8: in `find_websites`, empty extractor stdout returns the raw stderr
text as the function's result instead of raising, while malformed JSON and
search-backend errors propagate as errors. -/
theorem discovery_soft_failure (r : SubprocResult) (parse : String → Option Record)
    (search : String → Except String String) :
    (r.stdout = "" → find_websites r parse search = .ok (.soft r.stderr)) ∧
    (¬r.stdout = "" → parse r.stdout = none →
      find_websites r parse search = .error "json.decoder.JSONDecodeError") ∧
    (∀ k0 v0 rest v vs e, ¬r.stdout = "" →
      parse r.stdout = some ((k0, v0) :: rest) →
      pyIter v0 = v :: vs →
      search (pyStr v) = .error e →
      find_websites r parse search = .error e) := by
  refine ⟨?_, ?_, ?_⟩
  · intro hs
    simp [find_websites, hs]
  · intro hs hp
    simp [find_websites, hs, hp]
  · intro k0 v0 rest v vs e hs hp hi hsearch
    simp [find_websites, hs, hp, hi, fwLoop, hsearch]

/-- Witness for C8: all three behaviours at concrete environments. -/
theorem discovery_soft_failure_witness :
    find_websites ⟨"", "errtext"⟩ (fun _ => none) (fun _ => .error "no") =
      .ok (.soft "errtext") ∧
    find_websites ⟨"X", ""⟩ (fun _ => none) (fun _ => .error "no") =
      .error "json.decoder.JSONDecodeError" ∧
    find_websites ⟨"X", ""⟩ (fun _ => some [("names", PyVal.list ["A"])])
      (fun _ => .error "Ratelimit") = .error "Ratelimit" :=
  ⟨(discovery_soft_failure ⟨"", "errtext"⟩ (fun _ => none) (fun _ => .error "no")).1 rfl,
   (discovery_soft_failure ⟨"X", ""⟩ (fun _ => none) (fun _ => .error "no")).2.1
     (by decide) rfl,
   (discovery_soft_failure ⟨"X", ""⟩ (fun _ => some [("names", PyVal.list ["A"])])
     (fun _ => .error "Ratelimit")).2.2 "names" (PyVal.list ["A"]) [] (PyVal.str "A")
     [] "Ratelimit" (by decide) rfl rfl rfl⟩

/-! ## Claim C9 -/

/-- Pickle-cache oracle for C9: the two cache locations named by the two
source flags hold different mappings. -/
def c9load : String → List (String × String) := fun f =>
  if f = "cacheA/links" then [("Org Alpha", "http://alpha.org")]
  else [("Org Beta", "http://beta.org")]

/-- Extraction oracle for C9: every organization succeeds. -/
def c9run : Nat → SubprocResult := fun _ => ⟨"J9", ""⟩

/-- JSON parser for C9. -/
def c9parse : String → Option Record :=
  fun s => if s = "J9" then some [("contacts", PyVal.list [])] else none

/-- First C9 command line: `-n 1 -l 1 -s cacheA -p ../`. -/
def c9args1 : Args := ⟨1, 1, "cacheA", "../", false⟩

/-- Second C9 command line, differing only in the source flag. -/
def c9args2 : Args := ⟨1, 1, "cacheB", "../", false⟩

/-- C9 is violated by the code: `__main__` passes the source-link flag as
`main`'s `path` parameter, so the batch path loads its pickle cache from
`{source_link}/links` and two runs that differ only in the source flag
produce different tables. -/
theorem source_flag_alters_batch :
    c9args1.n_associations = c9args2.n_associations ∧
    c9args1.limit = c9args2.limit ∧
    c9args1.path = c9args2.path ∧
    c9args1.verbose = c9args2.verbose ∧
    c9args1.source_link ≠ c9args2.source_link ∧
    runBatch c9load c9run c9parse c9args1 ≠ runBatch c9load c9run c9parse c9args2 :=
  ⟨rfl, rfl, rfl, rfl, by decide, by decide⟩

end NoProfit
